import Mathlib

/-
Shallow embedding of the auto-assignment engine of `src/main.py`
(endpoint `POST /assign/auto`, function `auto_assign`, together with its
helpers `time_overlap`, `shift_duration_hours` and `is_available`).

Modelling choices:
* Mongo documents become records.  A field read with `doc.get(key)` that can
  be absent is an `Option`; the `assigned_staff_ids` key in particular is
  `Option (List String)` because the code distinguishes a present list
  (which is aliased by `assigned = sh.get("assigned_staff_ids", [])`)
  from an absent key (where `get` returns a fresh empty list).
* Python strings are sequences of unicode code points compared
  lexicographically; we compare the character list of a `String` the same
  way (`listLe`).
* `datetime` values carry only their date portion here (days since a fixed
  epoch, as a `Nat`); the code only ever uses `.date()` equality, a day
  range filter, and `strftime("%a")`.  Day number 0 is a Thursday.
* Python floats are modelled as exact rationals.
* The two dictionaries `assignments` and `staff_hours` become total
  functions with the default values the code supplies to `.get`.
-/

namespace Sched

/-- Python string comparison `a <= b`: lexicographic on code points. -/
def listLe : List Char → List Char → Bool
  | [], _ => true
  | _ :: _, [] => false
  | a :: as, b :: bs =>
    if a.toNat < b.toNat then true
    else if b.toNat < a.toNat then false
    else listLe as bs

/-- Python `a <= b` on strings. -/
def strLe (a b : String) : Bool := listLe a.toList b.toList

/-- Split a character list at every colon, as `strptime` separates the
fields of the format `"%H:%M"`. -/
def splitOnColon : List Char → List (List Char)
  | [] => [[]]
  | c :: rest =>
    if c = ':' then [] :: splitOnColon rest
    else
      match splitOnColon rest with
      | h :: t => (c :: h) :: t
      | [] => [[c]]

def isDigitChar (c : Char) : Bool := decide (48 ≤ c.toNat) && decide (c.toNat ≤ 57)

def digitsVal (cs : List Char) : Nat := cs.foldl (fun a c => a * 10 + (c.toNat - 48)) 0

/-- One numeric field of `strptime`: one or two digits, value at most `hi`
(23 for `%H`, 59 for `%M`). -/
def parseField (cs : List Char) (hi : Nat) : Option Nat :=
  if cs.length = 0 ∨ 2 < cs.length then none
  else if cs.all isDigitChar then
    if digitsVal cs ≤ hi then some (digitsVal cs) else none
  else none

/-- `datetime.strptime(s, "%H:%M")`, returning minutes since midnight;
`none` models the `ValueError` branch. -/
def parseHM (s : String) : Option Nat :=
  match splitOnColon s.toList with
  | [h, m] =>
    match parseField h 23, parseField m 59 with
    | some hv, some mv => some (hv * 60 + mv)
    | _, _ => none
  | _ => none

/-- Python `max(a, b)` on two numbers (returns the first argument on ties). -/
def pymax (a b : ℚ) : ℚ := if b ≤ a then a else b

/-- Python `min(a, b)` on two numbers (returns the first argument on ties). -/
def pymin (a b : ℚ) : ℚ := if a ≤ b then a else b

/-- One entry of a staff document's `availability` array; the keys are
`"day"`, `"start"` and `"end"` (the last one is called `stop` here because
`end` is reserved). -/
structure Window where
  day : String
  start : String
  stop : String
  deriving DecidableEq

/-- The fields of a staff document that `auto_assign` reads.  `id` is
`str(s["_id"])`. -/
structure StaffDoc where
  id : String
  role : Option String
  is_active : Bool
  preferred_shift : Option String
  availability : List Window
  max_hours_per_week : Option ℚ
  skills : List String
  deriving DecidableEq

/-- The fields of a shift document that `auto_assign` reads.  `date` is the
date portion of the stored datetime.  `type` is the shift type
(day/evening/night).  `assigned_staff_ids = none` models a document without
that key; `some l` models a present list `l`. -/
structure ShiftDoc where
  id : String
  status : String
  date : Nat
  type : Option String
  start_time : String
  end_time : String
  required_role : Option String
  required_count : Option Int
  assigned_staff_ids : Option (List String)
  deriving DecidableEq

/-- The snapshot the pass works on: the shift and staff collections in
query order. -/
structure Snapshot where
  shifts : List ShiftDoc
  staff : List StaffDoc
  deriving DecidableEq

/-- A booked window recorded in the `assignments` dictionary. -/
structure Slot where
  date : Nat
  start : String
  stop : String
  deriving DecidableEq

/-- One mutation written back by the pass: `$set` of `assigned_staff_ids`
and `status` on the shift with id `shift_id`. -/
structure Update where
  shift_id : String
  assigned_staff_ids : List String
  status : String
  deriving DecidableEq

/-- `time_overlap(s1, e1, s2, e2)` from the source:
`not (e1 <= s2 or e2 <= s1)`. -/
def time_overlap (s1 e1 s2 e2 : String) : Bool :=
  !(strLe e1 s2 || strLe e2 s1)

/-- `sh.get("assigned_staff_ids", [])` seen as a value (ignoring aliasing,
which is handled in `updOf`). -/
def assignedList (sh : ShiftDoc) : List String := sh.assigned_staff_ids.getD []

/-- `int(sh.get("required_count", 1))`. -/
def neededOf (sh : ShiftDoc) : Int := sh.required_count.getD 1

/-- `shift_duration_hours`: parse both times; `(en - st).seconds / 3600`
(note `timedelta.seconds` is the nonnegative seconds field, i.e. the
difference modulo 86400); add 24 when the result is not positive; default
to 8.0 on a parse failure. -/
def shift_duration_hours (sh : ShiftDoc) : ℚ :=
  match parseHM sh.start_time, parseHM sh.end_time with
  | some st, some en =>
    let diff : ℚ := ((((en : Int) - st) * 60).emod 86400 : Int) / 3600
    if diff ≤ 0 then diff + 24 else diff
  | _, _ => 8

/-- The window the pass books for a shift. -/
def slotOf (sh : ShiftDoc) : Slot := ⟨sh.date, sh.start_time, sh.end_time⟩

/-- The mutable engine state: the `assignments` dict (default `[]`) and the
`staff_hours` dict (default `0.0`, which also absorbs the initial zeroing
of every active staff id). -/
structure Trackers where
  assignments : String → List Slot
  staff_hours : String → ℚ

def emptyTrackers : Trackers := ⟨fun _ => [], fun _ => 0⟩

/-- Book one staff id on one shift: append its window and add its
duration. -/
def Trackers.book (t : Trackers) (sid : String) (sh : ShiftDoc) : Trackers :=
  ⟨fun x => if x = sid then t.assignments x ++ [slotOf sh] else t.assignments x,
   fun x => if x = sid then t.staff_hours x + shift_duration_hours sh else t.staff_hours x⟩

/-- The preload loop: for every fetched shift with a truthy
`assigned_staff_ids`, book every listed staff id. -/
def seed (shifts : List ShiftDoc) : Trackers :=
  (shifts.filter fun sh => !(assignedList sh).isEmpty).foldl
    (fun t sh => (assignedList sh).foldl (fun t2 sid => t2.book sid sh) t)
    emptyTrackers

/-- The lowercase three-letter day abbreviations, indexed by day number
modulo 7 (day 0 is a Thursday). -/
def dayNames : List String := ["thu", "fri", "sat", "sun", "mon", "tue", "wed"]

/-- `sh.get("date").strftime("%a").lower()[:3]`. -/
def dayAbbrev (d : Nat) : String := dayNames.getD (d % 7) ""

/-- `is_available(staff_doc, sh)` from the source.  `preferred_ok` is
`(preferred_shift in (None, type)) or (preferred_shift is None)`; the loop
returns `preferred_ok` at the first availability entry whose day matches
and which fully contains the shift, else `False`. -/
def is_available (stf : StaffDoc) (sh : ShiftDoc) : Bool :=
  if stf.availability.any (fun a =>
      a.day == dayAbbrev sh.date
        && strLe a.start sh.start_time && strLe sh.end_time a.stop)
  then (stf.preferred_shift == none || stf.preferred_shift == sh.type)
        || stf.preferred_shift == none
  else false

/-- The overlap test inside the candidate loop: some booked slot of this
staff id is on the shift's calendar date and overlaps its time range. -/
def hasOverlap (t : Trackers) (sid : String) (sh : ShiftDoc) : Bool :=
  (t.assignments sid).any fun slot =>
    slot.date == sh.date && time_overlap slot.start slot.stop sh.start_time sh.end_time

/-- The score of a surviving candidate:
`hours_left + preferred_bonus + skill_bonus`. -/
def scoreOf (t : Trackers) (s : StaffDoc) (sh : ShiftDoc) : ℚ :=
  pymax 0 ((s.max_hours_per_week.getD 40) - t.staff_hours s.id)
    + (if s.preferred_shift == sh.type then (1 : ℚ) else 0)
    + pymin 2 ((s.skills.length : ℚ) * (1 / 10))

/-- The scoring loop over the candidate pool: keep the candidates passing
`is_available` and failing the overlap test, paired with their score. -/
def scoredCandidates (t : Trackers) (cands : List StaffDoc) (sh : ShiftDoc) :
    List (ℚ × StaffDoc) :=
  cands.filterMap fun s =>
    if is_available s sh && !hasOverlap t s.id sh
    then some (scoreOf t s sh, s) else none

/-- Insert into a descending list, after every strictly greater score:
together with `sortDesc` this is the unique stable descending sort, which
is what `list.sort(key=..., reverse=True)` computes. -/
def insertDesc (x : ℚ × StaffDoc) : List (ℚ × StaffDoc) → List (ℚ × StaffDoc)
  | [] => [x]
  | y :: ys => if x.1 < y.1 then y :: insertDesc x ys else x :: y :: ys

/-- Stable descending sort by score. -/
def sortDesc : List (ℚ × StaffDoc) → List (ℚ × StaffDoc)
  | [] => []
  | x :: xs => insertDesc x (sortDesc xs)

/-- The greedy fill loop: pop candidates while the assigned count is below
`needed`, appending the staff id and booking it. -/
def assignLoop (needed : Int) (sh : ShiftDoc) :
    List (ℚ × StaffDoc) → List String → Trackers → List String × Trackers
  | [], assigned, t => (assigned, t)
  | p :: rest, assigned, t =>
    if needed ≤ (assigned.length : Int) then (assigned, t)
    else assignLoop needed sh rest (assigned ++ [p.2.id]) (t.book p.2.id sh)

/-- `staff_by_role.get(role, [])`: the active staff whose role equals the
shift's required role, in input order (the dict of lists groups stably). -/
def candidatesFor (staffList : List StaffDoc) (sh : ShiftDoc) : List StaffDoc :=
  staffList.filter fun s => s.role == sh.required_role

/-- The write-back decision `if assigned != sh.get("assigned_staff_ids", [])`.
When the key is present, `assigned` is the very list object stored in the
document, mutated in place, so the comparison is between a list and itself
and never fires.  When the key is absent, `get` built a fresh `[]`, so the
comparison fires exactly when something was appended. -/
def updOf (sh : ShiftDoc) (assigned : List String) : Option Update :=
  match sh.assigned_staff_ids with
  | some _ => none
  | none => if assigned.isEmpty then none else some ⟨sh.id, assigned, "published"⟩

/-- The body of the per-shift loop: skip a filled shift, otherwise score,
sort, greedily fill, and decide the mutation. -/
def processShift (staffList : List StaffDoc) (t : Trackers) (sh : ShiftDoc) :
    Trackers × Option Update :=
  if neededOf sh ≤ ((assignedList sh).length : Int) then (t, none)
  else
    ((assignLoop (neededOf sh) sh
        (sortDesc (scoredCandidates t (candidatesFor staffList sh) sh))
        (assignedList sh) t).2,
     updOf sh
       (assignLoop (neededOf sh) sh
         (sortDesc (scoredCandidates t (candidatesFor staffList sh) sh))
         (assignedList sh) t).1)

/-- The list each shift ends up with in the database after the pass: the
mutation's list when one was written, else the input value. -/
def finListOf (sh : ShiftDoc) (u : Option Update) : List String :=
  match u with
  | some m => m.assigned_staff_ids
  | none => assignedList sh

/-- The record this development keeps per processed shift: the shift, its
final database list, and the mutation written for it (if any). -/
structure PassEntry where
  shift : ShiftDoc
  fin : List String
  upd : Option Update
  deriving DecidableEq

def mkEntry (staffList : List StaffDoc) (t : Trackers) (sh : ShiftDoc) : PassEntry :=
  ⟨sh, finListOf sh (processShift staffList t sh).2, (processShift staffList t sh).2⟩

/-- One iteration of the main loop, threading the trackers and appending
the mutation (as `updates.append` does) plus the bookkeeping entry. -/
def stepShift (staffList : List StaffDoc)
    (acc : Trackers × List Update × List PassEntry) (sh : ShiftDoc) :
    Trackers × List Update × List PassEntry :=
  ((processShift staffList acc.1 sh).1,
   acc.2.1 ++ ((processShift staffList acc.1 sh).2).toList,
   acc.2.2 ++ [mkEntry staffList acc.1 sh])

/-- The Mongo query filter on shifts: status in `{planned, published}`, and
when a date is requested, the whole-day range on `date`. -/
def statusOk (sh : ShiftDoc) : Bool := sh.status == "planned" || sh.status == "published"

def filteredShifts (d : Option Nat) (snap : Snapshot) : List ShiftDoc :=
  snap.shifts.filter fun sh =>
    statusOk sh && (match d with | none => true | some dd => sh.date == dd)

/-- The staff query: `is_active == True`. -/
def activeStaff (snap : Snapshot) : List StaffDoc := snap.staff.filter (·.is_active)

/-- The whole pass: fetch, seed the trackers from already-assigned fetched
shifts, then fold the per-shift loop. -/
def runPass (d : Option Nat) (snap : Snapshot) :
    Trackers × List Update × List PassEntry :=
  (filteredShifts d snap).foldl (stepShift (activeStaff snap))
    (seed (filteredShifts d snap), [], [])

/-- The mutations written by `auto_assign` (the ids collected in `updates`,
each with the `$set` payload). -/
def auto_assign (d : Option Nat) (snap : Snapshot) : List Update :=
  (runPass d snap).2.1

/-- Per-shift outcome of the pass, in processing order. -/
def passEntries (d : Option Nat) (snap : Snapshot) : List PassEntry :=
  (runPass d snap).2.2

/-
Concrete inputs used by the claims.  Day number 2 is a Saturday
(`dayAbbrev 2 = "sat"`).
-/

/-- A Saturday availability window fully containing 08:00 to 16:00. -/
def wSat : Window := ⟨"sat", "07:00", "17:00"⟩

/-- Active cna staff member, available on Saturdays, no preference. -/
def stA1 : StaffDoc := ⟨"s1", some "cna", true, none, [wSat], none, []⟩

/-- Second such staff member. -/
def stA2 : StaffDoc := ⟨"s2", some "cna", true, none, [wSat], none, []⟩

/-- Third active cna staff member with no availability entries. -/
def stA3 : StaffDoc := ⟨"s3", some "cna", true, none, [], none, []⟩

/-- Scenario A shift: role cna, `required_count` 2, and the
`assigned_staff_ids` key present with an empty list (the schema default, so
every shift created through the API looks like this). -/
def shA : ShiftDoc :=
  ⟨"sh1", "planned", 2, some "day", "08:00", "16:00", some "cna", some 2, some []⟩

/-- The same shift with the `assigned_staff_ids` key absent. -/
def shA_missing : ShiftDoc :=
  ⟨"sh1", "planned", 2, some "day", "08:00", "16:00", some "cna", some 2, none⟩

def snapA : Snapshot := ⟨[shA], [stA1, stA2, stA3]⟩

def snapA_missing : Snapshot := ⟨[shA_missing], [stA1, stA2, stA3]⟩

/-- A shift outside the requested date (date 1), already assigned to staff
id "x", lasting four hours. -/
def shOut : ShiftDoc :=
  ⟨"o1", "planned", 1, some "day", "09:00", "13:00", some "cna", some 1, some ["x"]⟩

/-- A shift on the requested date (date 2), with nobody assigned. -/
def shIn : ShiftDoc :=
  ⟨"r1", "planned", 2, some "day", "08:00", "16:00", some "cna", some 1, some []⟩

def snapC2 : Snapshot := ⟨[shOut, shIn], []⟩

end Sched

namespace Sched

/-
Seeding characterization, by induction on the booking folds.
-/

theorem book_hours (t : Trackers) (sid x : String) (sh : ShiftDoc) :
    (t.book sid sh).staff_hours x =
      if x = sid then t.staff_hours x + shift_duration_hours sh else t.staff_hours x := rfl

theorem book_slots (t : Trackers) (sid x : String) (sh : ShiftDoc) :
    (t.book sid sh).assignments x =
      if x = sid then t.assignments x ++ [slotOf sh] else t.assignments x := rfl

theorem foldBook_hours (sh : ShiftDoc) :
    ∀ (l : List String) (t : Trackers) (x : String),
      ((l.foldl (fun t2 sid => t2.book sid sh) t).staff_hours x)
        = t.staff_hours x + (l.count x : ℚ) * shift_duration_hours sh := by
  intro l
  induction l with
  | nil => intro t x; simp
  | cons a l ih =>
    intro t x
    rw [List.foldl_cons, ih, List.count_cons, book_hours]
    by_cases hxa : x = a
    · rw [if_pos hxa, if_pos (by rw [hxa]; exact (beq_self_eq_true a))]
      push_cast
      ring
    · rw [if_neg hxa, if_neg (by simpa [beq_iff_eq] using fun h => hxa h.symm)]
      push_cast
      ring

theorem foldBook_slots (sh : ShiftDoc) :
    ∀ (l : List String) (t : Trackers) (x : String),
      ((l.foldl (fun t2 sid => t2.book sid sh) t).assignments x)
        = t.assignments x ++ List.replicate (l.count x) (slotOf sh) := by
  intro l
  induction l with
  | nil => intro t x; simp
  | cons a l ih =>
    intro t x
    rw [List.foldl_cons, ih, List.count_cons, book_slots]
    by_cases hxa : x = a
    · rw [if_pos hxa, if_pos (by rw [hxa]; exact (beq_self_eq_true a))]
      rw [List.append_assoc]
      congr 1
    · rw [if_neg hxa, if_neg (by simpa [beq_iff_eq] using fun h => hxa h.symm)]
      simp

theorem seedAux_hours :
    ∀ (shifts : List ShiftDoc) (t : Trackers) (x : String),
      (((shifts.filter fun sh => !(assignedList sh).isEmpty).foldl
          (fun t2 sh => (assignedList sh).foldl (fun t3 sid => t3.book sid sh) t2)
          t).staff_hours x)
        = t.staff_hours x
          + ((shifts.map fun sh =>
              ((assignedList sh).count x : ℚ) * shift_duration_hours sh)).sum := by
  intro shifts
  induction shifts with
  | nil => intro t x; simp
  | cons sh rest ih =>
    intro t x
    rw [List.filter_cons]
    by_cases hne : (!(assignedList sh).isEmpty) = true
    · rw [if_pos hne, List.foldl_cons, ih, foldBook_hours, List.map_cons, List.sum_cons]
      ring
    · rw [if_neg hne, ih, List.map_cons, List.sum_cons]
      have hemp : assignedList sh = [] := by
        cases h : assignedList sh with
        | nil => rfl
        | cons a l => rw [h] at hne; simp at hne
      rw [hemp]
      simp

theorem seedAux_slots :
    ∀ (shifts : List ShiftDoc) (t : Trackers) (x : String),
      (((shifts.filter fun sh => !(assignedList sh).isEmpty).foldl
          (fun t2 sh => (assignedList sh).foldl (fun t3 sid => t3.book sid sh) t2)
          t).assignments x)
        = t.assignments x
          ++ (shifts.flatMap fun sh =>
              List.replicate ((assignedList sh).count x) (slotOf sh)) := by
  intro shifts
  induction shifts with
  | nil => intro t x; simp
  | cons sh rest ih =>
    intro t x
    rw [List.filter_cons]
    by_cases hne : (!(assignedList sh).isEmpty) = true
    · rw [if_pos hne, List.foldl_cons, ih, foldBook_slots, List.flatMap_cons,
        List.append_assoc]
    · rw [if_neg hne, ih, List.flatMap_cons]
      have hemp : assignedList sh = [] := by
        cases h : assignedList sh with
        | nil => rfl
        | cons a l => rw [h] at hne; simp at hne
      rw [hemp]
      simp

theorem seed_hours (shifts : List ShiftDoc) (x : String) :
    (seed shifts).staff_hours x
      = ((shifts.map fun sh =>
          ((assignedList sh).count x : ℚ) * shift_duration_hours sh)).sum := by
  have h := seedAux_hours shifts emptyTrackers x
  rw [seed, h]
  simp [emptyTrackers]

theorem seed_slots (shifts : List ShiftDoc) (x : String) :
    (seed shifts).assignments x
      = shifts.flatMap fun sh =>
          List.replicate ((assignedList sh).count x) (slotOf sh) := by
  have h := seedAux_slots shifts emptyTrackers x
  rw [seed, h]
  simp [emptyTrackers]

/-- Every pre-existing assignment among the fetched shifts is booked in the
seeded trackers. -/
theorem seed_covers {shifts : List ShiftDoc} {sh : ShiftDoc} {sid : String}
    (hsh : sh ∈ shifts) (hsid : sid ∈ assignedList sh) :
    slotOf sh ∈ (seed shifts).assignments sid := by
  rw [seed_slots]
  rw [List.mem_flatMap]
  refine ⟨sh, hsh, ?_⟩
  rw [List.mem_replicate]
  have hc : 0 < (assignedList sh).count sid := List.count_pos_iff.mpr hsid
  exact ⟨by omega, rfl⟩

/-- C2 counterexample: with date 2 requested, the shift `shOut` on date 1
is already assigned to staff id "x" and lasts 4 hours, yet the seeded
workload tracker holds zero hours and no booked window for "x", because the
seeding scan only sees the date-filtered query result. -/
theorem claim_C2_counterexample :
    shOut ∈ snapC2.shifts ∧
    shOut.assigned_staff_ids = some ["x"] ∧
    shOut.date ≠ 2 ∧
    shift_duration_hours shOut = 4 ∧
    (seed (filteredShifts (some 2) snapC2)).staff_hours "x" = 0 ∧
    (seed (filteredShifts (some 2) snapC2)).assignments "x" = [] := by
  refine ⟨by simp [snapC2], rfl, by decide, ?_, ?_, ?_⟩
  · have h1 : parseHM "09:00" = some 540 := by decide
    have h2 : parseHM "13:00" = some 780 := by decide
    have h3 : ((((780 : Int) - 540) * 60).emod 86400) = 14400 := by decide
    simp only [shift_duration_hours, shOut, h1, h2, h3]
    norm_num
  · have hf : filteredShifts (some 2) snapC2 = [shIn] := by decide
    rw [hf]
    rfl
  · have hf : filteredShifts (some 2) snapC2 = [shIn] := by decide
    rw [hf]
    rfl

/-- C2 as amended: the workload tracker is seeded exactly from the shifts
of the filtered query result (status planned or published and, when a date
is requested, that date only): each staff id is credited with the sum of
the durations of those fetched shifts listing it (once per occurrence) and
its booked windows are exactly those shifts' windows; shifts outside the
filter, for example on other dates, contribute nothing. -/
theorem claim_C2 (d : Option Nat) (snap : Snapshot) (sid : String) :
    (seed (filteredShifts d snap)).staff_hours sid
      = (((filteredShifts d snap).map fun sh =>
          ((assignedList sh).count sid : ℚ) * shift_duration_hours sh)).sum ∧
    (seed (filteredShifts d snap)).assignments sid
      = (filteredShifts d snap).flatMap fun sh =>
          List.replicate ((assignedList sh).count sid) (slotOf sh) :=
  ⟨seed_hours (filteredShifts d snap) sid, seed_slots (filteredShifts d snap) sid⟩

/-- Evaluation lemma: the active cna staff pool of Scenario A. -/
theorem snapA_candidates : candidatesFor (activeStaff snapA) shA = [stA1, stA2, stA3] := by
  decide

theorem snapA_missing_candidates :
    candidatesFor (activeStaff snapA_missing) shA_missing = [stA1, stA2, stA3] := by
  decide

theorem scoreOf_stA1 : scoreOf emptyTrackers stA1 shA = 40 := by
  norm_num [scoreOf, pymax, pymin, emptyTrackers, stA1, shA]

theorem scoreOf_stA2 : scoreOf emptyTrackers stA2 shA = 40 := by
  norm_num [scoreOf, pymax, pymin, emptyTrackers, stA2, shA]

theorem scoreOf_stA1_missing : scoreOf emptyTrackers stA1 shA_missing = 40 := by
  norm_num [scoreOf, pymax, pymin, emptyTrackers, stA1, shA_missing]

theorem scoreOf_stA2_missing : scoreOf emptyTrackers stA2 shA_missing = 40 := by
  norm_num [scoreOf, pymax, pymin, emptyTrackers, stA2, shA_missing]

theorem sortDesc_pair_40 (a b : StaffDoc) :
    sortDesc [((40 : ℚ), a), (40, b)] = [(40, a), (40, b)] := by
  norm_num [sortDesc, insertDesc]

theorem snapA_scored : scoredCandidates emptyTrackers [stA1, stA2, stA3] shA = [(40, stA1), (40, stA2)] := by
  have h : scoredCandidates emptyTrackers [stA1, stA2, stA3] shA =
      [(scoreOf emptyTrackers stA1 shA, stA1), (scoreOf emptyTrackers stA2 shA, stA2)] := rfl
  rw [h, scoreOf_stA1, scoreOf_stA2]

theorem snapA_missing_scored :
    scoredCandidates emptyTrackers [stA1, stA2, stA3] shA_missing = [(40, stA1), (40, stA2)] := by
  have h : scoredCandidates emptyTrackers [stA1, stA2, stA3] shA_missing =
      [(scoreOf emptyTrackers stA1 shA_missing, stA1),
       (scoreOf emptyTrackers stA2 shA_missing, stA2)] := rfl
  rw [h, scoreOf_stA1_missing, scoreOf_stA2_missing]

/-- C1: the claim fails on the code, and the code is wrong against the
spec's own description of step 6 (a changed assigned list must be persisted
as a mutation with status "published").  In Scenario A, with the
`assigned_staff_ids` field present on the shift document (the schema
default), the greedy fill does append the two available staff, but the
written-back mutation list is empty because the change check compares the
aliased list object with itself.  The identical snapshot with the key
absent produces exactly the mutation the claim demands, exhibiting that the
assignment logic found the two staff and only the persistence check is at
fault. -/
theorem claim_C1 :
    auto_assign none snapA = [] ∧
    auto_assign none snapA_missing = [⟨"sh1", ["s1", "s2"], "published"⟩] := by
  constructor
  · have hseed : seed (filteredShifts none snapA) = emptyTrackers := rfl
    simp only [auto_assign, runPass, hseed]
    simp only [filteredShifts, snapA, List.filter, statusOk]
    norm_num [stepShift, processShift, neededOf, assignedList, shA, snapA_candidates,
      snapA_scored, sortDesc_pair_40, assignLoop, updOf, mkEntry, finListOf]
  · have hf : filteredShifts none snapA_missing = [shA_missing] := by decide
    have hseed : seed [shA_missing] = emptyTrackers := rfl
    have hloop : (assignLoop 2 shA_missing [((40 : ℚ), stA1), (40, stA2)] []
        emptyTrackers).1 = ["s1", "s2"] := by
      norm_num [assignLoop, stA1, stA2]
    have hupd : (processShift (activeStaff snapA_missing) emptyTrackers shA_missing).2 =
        some ⟨"sh1", ["s1", "s2"], "published"⟩ := by
      simp only [processShift]
      rw [if_neg (by decide)]
      rw [snapA_missing_candidates, snapA_missing_scored, sortDesc_pair_40]
      have h1 : neededOf shA_missing = 2 := rfl
      have h2 : assignedList shA_missing = [] := rfl
      rw [h1, h2, hloop]
      rfl
    simp only [auto_assign, runPass, hf, hseed, List.foldl_cons, List.foldl_nil, stepShift]
    rw [hupd]
    rfl

end Sched

namespace Sched

/-- C5: the availability predicate holds iff the preference condition and
the containing-window condition hold together: no preference set or a
preference equal to the shift type, and some availability window on the
shift's weekday whose start is at or before the shift start and whose end
is at or after the shift end.  A merely overlapping window does not
qualify, and a mismatched preference rejects even with a containing
window. -/
theorem claim_C5 (stf : StaffDoc) (sh : ShiftDoc) :
    is_available stf sh = true ↔
      ((stf.preferred_shift = none ∨ stf.preferred_shift = sh.type) ∧
        ∃ w ∈ stf.availability, w.day = dayAbbrev sh.date ∧
          strLe w.start sh.start_time = true ∧ strLe sh.end_time w.stop = true) := by
  rw [is_available]
  by_cases h : stf.availability.any (fun a =>
      a.day == dayAbbrev sh.date
        && strLe a.start sh.start_time && strLe sh.end_time a.stop) = true
  · rw [if_pos h]
    simp only [List.any_eq_true, Bool.and_eq_true, beq_iff_eq] at h
    constructor
    · intro hp
      simp only [Bool.or_eq_true, beq_iff_eq] at hp
      obtain ⟨w, hw, ⟨hd, hs⟩, he⟩ := h
      refine ⟨?_, w, hw, hd, hs, he⟩
      rcases hp with (hp2 | hp2) | hp2
      · exact Or.inl hp2
      · exact Or.inr hp2
      · exact Or.inl hp2
    · intro hc
      rcases hc.1 with hp | hp
      · simp [hp]
      · simp [hp]
  · rw [if_neg h]
    simp only [List.any_eq_true, Bool.and_eq_true, beq_iff_eq] at h
    constructor
    · intro hf
      exact absurd hf (by simp)
    · intro hc
      obtain ⟨w, hw, hd, hs, he⟩ := hc.2
      exact absurd ⟨w, hw, ⟨hd, hs⟩, he⟩ h

theorem pymax_eq_max (a b : ℚ) : pymax a b = max a b := by
  rw [pymax, max_def]
  by_cases h : b ≤ a
  · rw [if_pos h]
    by_cases h2 : a ≤ b
    · rw [if_pos h2]
      exact le_antisymm h2 h
    · rw [if_neg h2]
  · rw [if_neg h, if_pos (le_of_not_le h)]

theorem pymin_eq_min (a b : ℚ) : pymin a b = min a b := by
  rw [pymin, min_def]

/-- Every element of the scored list comes from the candidate pool, passed
the availability check, failed the overlap check, and carries its score. -/
theorem scoredCandidates_mem {t : Trackers} {cands : List StaffDoc} {sh : ShiftDoc}
    {q : ℚ} {s : StaffDoc} (h : (q, s) ∈ scoredCandidates t cands sh) :
    s ∈ cands ∧ is_available s sh = true ∧ hasOverlap t s.id sh = false ∧
      q = scoreOf t s sh := by
  rw [scoredCandidates, List.mem_filterMap] at h
  obtain ⟨a, ha, hif⟩ := h
  by_cases hc : (is_available a sh && !hasOverlap t a.id sh) = true
  · rw [if_pos hc] at hif
    simp only [Bool.and_eq_true, Bool.not_eq_true'] at hc
    obtain ⟨h1, h2⟩ := hc
    have hqa : scoreOf t a sh = q ∧ a = s := by
      have := Option.some.inj hif
      exact ⟨congrArg Prod.fst this, congrArg Prod.snd this⟩
    obtain ⟨hq, has⟩ := hqa
    subst has
    exact ⟨ha, h1, h2, hq.symm⟩
  · rw [if_neg hc] at hif
    cases hif

/-- C6: the score attached to every surviving candidate equals
`hoursLeft + preferredBonus + skillBonus` with
`hoursLeft = max(0, max_hours_per_week - accumulatedHours)` (accumulated
hours defaulting to 0), `preferredBonus` 1 exactly on a preferred-shift
match, and `skillBonus = min(2, 0.1 * numSkills)`. -/
theorem claim_C6 (t : Trackers) (cands : List StaffDoc) (sh : ShiftDoc)
    (q : ℚ) (s : StaffDoc) (h : (q, s) ∈ scoredCandidates t cands sh) :
    q = max 0 ((s.max_hours_per_week.getD 40) - t.staff_hours s.id)
        + (if s.preferred_shift = sh.type then (1 : ℚ) else 0)
        + min 2 ((s.skills.length : ℚ) / 10) := by
  rw [(scoredCandidates_mem h).2.2.2, scoreOf, pymax_eq_max, pymin_eq_min]
  simp only [beq_iff_eq, mul_one_div]

theorem claim_C6_witness :
    ((40 : ℚ), stA1) ∈ scoredCandidates emptyTrackers [stA1] shA ∧
    (40 : ℚ) = max 0 ((stA1.max_hours_per_week.getD 40)
          - emptyTrackers.staff_hours stA1.id)
        + (if stA1.preferred_shift = shA.type then (1 : ℚ) else 0)
        + min 2 ((stA1.skills.length : ℚ) / 10) := by
  have hm : ((40 : ℚ), stA1) ∈ scoredCandidates emptyTrackers [stA1] shA := by
    have he : scoredCandidates emptyTrackers [stA1] shA
        = [(scoreOf emptyTrackers stA1 shA, stA1)] := rfl
    rw [he, scoreOf_stA1]
    exact List.mem_singleton.mpr rfl
  exact ⟨hm, claim_C6 emptyTrackers [stA1] shA 40 stA1 hm⟩

theorem parseField_le {cs : List Char} {hi v : Nat} (h : parseField cs hi = some v) :
    v ≤ hi := by
  rw [parseField] at h
  split_ifs at h
  exact (Option.some.inj h) ▸ (by assumption)

theorem parseHM_lt {s : String} {v : Nat} (h : parseHM s = some v) : v < 1440 := by
  rw [parseHM] at h
  split at h
  · split at h
    · rename_i hv mv hfh hfm
      have h1 := parseField_le hfh
      have h2 := parseField_le hfm
      have := Option.some.inj h
      omega
    · cases h
  · cases h

/-- C7: on parseable wall-clock times the duration is the positive
difference in hours, and the difference plus 24 when it is not positive
(midnight crossing; equal times give 24); it always lies in (0, 24]. -/
theorem claim_C7 (sh : ShiftDoc) (st en : Nat)
    (h1 : parseHM sh.start_time = some st) (h2 : parseHM sh.end_time = some en) :
    shift_duration_hours sh
        = (if st < en then ((en : ℚ) - st) / 60 else ((en : ℚ) - st) / 60 + 24) ∧
    0 < shift_duration_hours sh ∧ shift_duration_hours sh ≤ 24 := by
  have hen : en < 1440 := parseHM_lt h2
  have hst : st < 1440 := parseHM_lt h1
  simp only [shift_duration_hours, h1, h2]
  rcases Nat.lt_trichotomy st en with hlt | heq | hgt
  · have hemod : (((en : Int) - st) * 60).emod 86400 = ((en : Int) - st) * 60 := by
      apply Int.emod_eq_of_lt
      · omega
      · omega
    rw [hemod]
    have hpos : (0 : ℚ) < (((en : Int) - st) * 60 : Int) / 3600 := by
      apply div_pos
      · push_cast
        have : (st : ℚ) < en := by exact_mod_cast hlt
        nlinarith
      · norm_num
    rw [if_neg (by exact not_le.mpr hpos), if_pos hlt]
    refine ⟨by push_cast; ring, hpos, ?_⟩
    rw [div_le_iff₀ (by norm_num : (0:ℚ) < 3600)]
    push_cast
    have h1q : (en : ℚ) ≤ 1439 := by exact_mod_cast Nat.lt_succ_iff.mp (by omega)
    have h2q : (0 : ℚ) ≤ (st : ℚ) := by positivity
    nlinarith
  · subst heq
    have hemod : (((st : Int) - st) * 60).emod 86400 = 0 := by
      have hz : ((st : Int) - st) * 60 = 0 := by ring
      rw [hz]
      exact Int.zero_emod _
    rw [hemod]
    have hz : ((0 : Int) : ℚ) / 3600 = 0 := by norm_num
    rw [hz]
    rw [if_pos (le_refl (0:ℚ)), if_neg (lt_irrefl st)]
    norm_num
  · have hbound : (0 : Int) ≤ ((en : Int) - st) * 60 + 86400 := by omega
    have hbound2 : ((en : Int) - st) * 60 + 86400 < 86400 := by omega
    have hemod : (((en : Int) - st) * 60).emod 86400 = ((en : Int) - st) * 60 + 86400 := by
      have hstep : (((en : Int) - st) * 60 + 86400 * 1).emod 86400 = (((en : Int) - st) * 60).emod 86400 :=
        Int.add_mul_emod_self_left ..
      rw [mul_one] at hstep
      rw [← hstep]
      exact Int.emod_eq_of_lt hbound hbound2
    rw [hemod]
    have hpos : (0 : ℚ) < ((((en : Int) - st) * 60 + 86400 : Int) : ℚ) / 3600 := by
      apply div_pos
      · push_cast
        have h1q : (en : ℚ) ≥ 0 := by positivity
        have h2q : (st : ℚ) ≤ 1439 := by exact_mod_cast Nat.lt_succ_iff.mp (by omega)
        nlinarith
      · norm_num
    rw [if_neg (not_le.mpr hpos), if_neg (by omega)]
    refine ⟨by push_cast; ring, hpos, ?_⟩
    rw [div_le_iff₀ (by norm_num : (0:ℚ) < 3600)]
    push_cast
    have h1q : (en : ℚ) ≤ 1439 := by exact_mod_cast Nat.lt_succ_iff.mp (by omega)
    have h2q : (0 : ℚ) ≤ (st : ℚ) := by positivity
    have h3q : (1 : ℚ) ≤ (st : ℚ) - en := by
      have : (en : ℚ) < st := by exact_mod_cast hgt
      have hint : (en : Int) + 1 ≤ st := by exact_mod_cast hgt
      have : ((en : ℚ)) + 1 ≤ st := by exact_mod_cast hint
      linarith
    nlinarith

theorem claim_C7_witness :
    shift_duration_hours shA
        = (if 480 < 960 then ((960 : ℚ) - 480) / 60 else ((960 : ℚ) - 480) / 60 + 24) ∧
    0 < shift_duration_hours shA ∧ shift_duration_hours shA ≤ 24 :=
  claim_C7 shA 480 960 (by decide) (by decide)

/-- C8: when either time fails to parse, the duration computation returns
the default 8 hours (the embedded parser returning `none` models the caught
`ValueError`; the Lean function is total, so nothing propagates). -/
theorem claim_C8 (sh : ShiftDoc)
    (h : parseHM sh.start_time = none ∨ parseHM sh.end_time = none) :
    shift_duration_hours sh = 8 := by
  rw [shift_duration_hours]
  rcases h with h | h
  · rw [h]
  · rw [h]
    cases hx : parseHM sh.start_time <;> rfl

/-- A shift whose start time does not parse. -/
def shBad : ShiftDoc :=
  ⟨"b1", "planned", 2, some "day", "soon", "16:00", some "cna", some 1, some []⟩

theorem claim_C8_witness :
    parseHM shBad.start_time = none ∧ shift_duration_hours shBad = 8 :=
  ⟨by decide, claim_C8 shBad (Or.inl (by decide))⟩

end Sched

namespace Sched

theorem insertDesc_mem (x b : ℚ × StaffDoc) :
    ∀ l : List (ℚ × StaffDoc), b ∈ insertDesc x l ↔ b = x ∨ b ∈ l := by
  intro l
  induction l with
  | nil => simp [insertDesc]
  | cons y ys ih =>
    rw [insertDesc]
    by_cases h : x.1 < y.1
    · rw [if_pos h]
      simp only [List.mem_cons, ih]
      tauto
    · rw [if_neg h]
      simp only [List.mem_cons]

theorem sortDesc_subset {b : ℚ × StaffDoc} :
    ∀ {l : List (ℚ × StaffDoc)}, b ∈ sortDesc l → b ∈ l := by
  intro l
  induction l with
  | nil => intro h; exact absurd h (by simp [sortDesc])
  | cons y ys ih =>
    intro h
    rw [sortDesc] at h
    rcases (insertDesc_mem y b (sortDesc ys)).mp h with rfl | hmem
    · exact List.mem_cons_self ..
    · exact List.mem_cons_of_mem _ (ih hmem)

theorem insertDesc_sorted (x : ℚ × StaffDoc) :
    ∀ {l : List (ℚ × StaffDoc)}, l.Pairwise (fun a b => b.1 ≤ a.1) →
      (insertDesc x l).Pairwise (fun a b => b.1 ≤ a.1) := by
  intro l
  induction l with
  | nil => intro _; simp [insertDesc]
  | cons y ys ih =>
    intro hs
    obtain ⟨hy, hys⟩ := List.pairwise_cons.mp hs
    rw [insertDesc]
    by_cases h : x.1 < y.1
    · rw [if_pos h]
      refine List.pairwise_cons.mpr ⟨?_, ih hys⟩
      intro b hb
      rcases (insertDesc_mem x b ys).mp hb with rfl | hbys
      · exact le_of_lt h
      · exact hy b hbys
    · rw [if_neg h]
      have hxy : y.1 ≤ x.1 := le_of_not_lt h
      refine List.pairwise_cons.mpr ⟨?_, hs⟩
      intro b hb
      rcases List.mem_cons.mp hb with rfl | hbys
      · exact hxy
      · exact le_trans (hy b hbys) hxy

theorem sortDesc_sorted :
    ∀ l : List (ℚ × StaffDoc), (sortDesc l).Pairwise (fun a b => b.1 ≤ a.1) := by
  intro l
  induction l with
  | nil => simp [sortDesc]
  | cons x xs ih => exact insertDesc_sorted x ih

theorem insertDesc_filter (x : ℚ × StaffDoc) (q : ℚ) :
    ∀ l : List (ℚ × StaffDoc),
      (insertDesc x l).filter (fun p => p.1 == q)
        = (if x.1 == q then [x] else []) ++ l.filter (fun p => p.1 == q) := by
  intro l
  induction l with
  | nil =>
    rw [insertDesc]
    by_cases hx : x.1 = q <;> simp [hx, List.filter_cons]
  | cons y ys ih =>
    rw [insertDesc]
    by_cases h : x.1 < y.1
    · rw [if_pos h, List.filter_cons, ih]
      by_cases hx : x.1 = q
      · have hy : ¬ y.1 = q := by
          rw [← hx]
          exact fun hh => absurd hh (ne_of_gt h)
        simp [hx, hy, List.filter_cons]
      · simp [hx, List.filter_cons]
    · rw [if_neg h, List.filter_cons, List.filter_cons]
      by_cases hx : x.1 = q <;> by_cases hy : y.1 = q <;>
        simp [hx, hy, List.filter_cons]

theorem sortDesc_filter (q : ℚ) :
    ∀ l : List (ℚ × StaffDoc),
      (sortDesc l).filter (fun p => p.1 == q) = l.filter (fun p => p.1 == q) := by
  intro l
  induction l with
  | nil => rfl
  | cons x xs ih =>
    rw [sortDesc, insertDesc_filter, ih, List.filter_cons]
    by_cases hx : x.1 = q <;> simp [hx]

/-- C10: the pass is a function of the input snapshot (two invocations on
equal snapshots yield the same mutation list), and the candidate sort is
the stable descending sort: its output is sorted by descending score, and
for every score value the candidates carrying that score appear in their
original input order (Python's `list.sort` with `reverse=True` is stable,
so equal-score ties are fully determined by the input ordering). -/
theorem claim_C10 :
    (∀ (d : Option Nat) (s1 s2 : Snapshot), s1 = s2 →
      auto_assign d s1 = auto_assign d s2) ∧
    (∀ l : List (ℚ × StaffDoc), (sortDesc l).Pairwise (fun a b => b.1 ≤ a.1)) ∧
    (∀ (l : List (ℚ × StaffDoc)) (q : ℚ),
      (sortDesc l).filter (fun p => p.1 == q) = l.filter (fun p => p.1 == q)) := by
  refine ⟨?_, sortDesc_sorted, fun l q => sortDesc_filter q l⟩
  intro d s1 s2 h
  rw [h]

theorem claim_C10_witness :
    auto_assign none ⟨[], []⟩ = auto_assign none ⟨[], []⟩ :=
  claim_C10.1 none ⟨[], []⟩ ⟨[], []⟩ rfl

end Sched

namespace Sched

/-- Tracker growth: every booked window stays booked. -/
def Trackers.le (t u : Trackers) : Prop :=
  ∀ (sid : String) (slot : Slot), slot ∈ t.assignments sid → slot ∈ u.assignments sid

theorem Trackers.le_refl (t : Trackers) : Trackers.le t t := fun _ _ h => h

theorem Trackers.le_trans {t u v : Trackers} (h1 : Trackers.le t u)
    (h2 : Trackers.le u v) : Trackers.le t v :=
  fun sid slot h => h2 sid slot (h1 sid slot h)

theorem book_le (t : Trackers) (sid : String) (sh : ShiftDoc) :
    Trackers.le t (t.book sid sh) := by
  intro x slot h
  rw [book_slots]
  by_cases hx : x = sid
  · rw [if_pos hx]
    exact List.mem_append_left _ h
  · rw [if_neg hx]
    exact h

theorem book_mem_slot (t : Trackers) (sid : String) (sh : ShiftDoc) :
    slotOf sh ∈ (t.book sid sh).assignments sid := by
  rw [book_slots, if_pos rfl]
  exact List.mem_append_right _ (List.mem_singleton.mpr rfl)

/-- The greedy fill only appends: the result extends the incoming list,
every appended id names somebody from the scored list, the id's window on
this shift is booked in the resulting trackers, and the trackers only
grow. -/
theorem assignLoop_spec (needed : Int) (sh : ShiftDoc) :
    ∀ (scored : List (ℚ × StaffDoc)) (assigned : List String) (t : Trackers),
      Trackers.le t (assignLoop needed sh scored assigned t).2 ∧
      ∃ news, (assignLoop needed sh scored assigned t).1 = assigned ++ news ∧
        ∀ n ∈ news, (∃ p ∈ scored, p.2.id = n) ∧
          slotOf sh ∈ ((assignLoop needed sh scored assigned t).2).assignments n := by
  intro scored
  induction scored with
  | nil =>
    intro assigned t
    rw [assignLoop]
    exact ⟨Trackers.le_refl t, [], by simp, by simp⟩
  | cons p rest ih =>
    intro assigned t
    rw [assignLoop]
    by_cases hc : needed ≤ (assigned.length : Int)
    · rw [if_pos hc]
      exact ⟨Trackers.le_refl t, [], by simp, by simp⟩
    · rw [if_neg hc]
      obtain ⟨hle, news, hfin, hnews⟩ := ih (assigned ++ [p.2.id]) (t.book p.2.id sh)
      refine ⟨Trackers.le_trans (book_le t p.2.id sh) hle, p.2.id :: news, ?_, ?_⟩
      · rw [hfin, List.append_assoc]
        rfl
      · intro n hn
        rcases List.mem_cons.mp hn with heq | hn2
        · subst heq
          exact ⟨⟨p, List.mem_cons_self .., rfl⟩,
            hle p.2.id (slotOf sh) (book_mem_slot t p.2.id sh)⟩
        · obtain ⟨⟨p2, hp2, hp2id⟩, hslot⟩ := hnews n hn2
          exact ⟨⟨p2, List.mem_cons_of_mem _ hp2, hp2id⟩, hslot⟩

theorem assignLoop_length (needed : Int) (sh : ShiftDoc) :
    ∀ (scored : List (ℚ × StaffDoc)) (assigned : List String) (t : Trackers),
      (assigned.length : Int) ≤ needed →
      (((assignLoop needed sh scored assigned t).1.length : Int) ≤ needed) := by
  intro scored
  induction scored with
  | nil =>
    intro assigned t h
    rw [assignLoop]
    exact h
  | cons p rest ih =>
    intro assigned t h
    rw [assignLoop]
    by_cases hc : needed ≤ (assigned.length : Int)
    · rw [if_pos hc]
      exact h
    · rw [if_neg hc]
      apply ih
      rw [List.length_append, List.length_singleton]
      push_cast
      push_cast at hc
      omega

theorem stepShift_eq (staffList : List StaffDoc) (t : Trackers) (us : List Update)
    (es : List PassEntry) (sh : ShiftDoc) :
    stepShift staffList (t, us, es) sh
      = ((processShift staffList t sh).1,
         us ++ ((processShift staffList t sh).2).toList,
         es ++ [mkEntry staffList t sh]) := rfl

/-- Every entry of the folded pass either was already present or is the
entry some tracker state produced for one of the processed shifts. -/
theorem entry_source (staffList : List StaffDoc) :
    ∀ (todo : List ShiftDoc) (t : Trackers) (us : List Update) (es : List PassEntry)
      (e : PassEntry),
      e ∈ (todo.foldl (stepShift staffList) (t, us, es)).2.2 →
      e ∈ es ∨ ∃ t2 sh, sh ∈ todo ∧ e = mkEntry staffList t2 sh := by
  intro todo
  induction todo with
  | nil =>
    intro t us es e h
    exact Or.inl h
  | cons sh rest ih =>
    intro t us es e h
    rw [List.foldl_cons, stepShift_eq] at h
    rcases ih _ _ _ e h with hmem | ⟨t2, sh2, hsh2, he⟩
    · rcases List.mem_append.mp hmem with h1 | h1
      · exact Or.inl h1
      · exact Or.inr ⟨t, sh, List.mem_cons_self .., List.mem_singleton.mp h1⟩
    · exact Or.inr ⟨t2, sh2, List.mem_cons_of_mem _ hsh2, he⟩

theorem mkEntry_shift (staffList : List StaffDoc) (t : Trackers) (sh : ShiftDoc) :
    (mkEntry staffList t sh).shift = sh := rfl

/-- A shift already at or over its required count is skipped: it keeps its
input list and produces no mutation. -/
theorem mkEntry_filled (staffList : List StaffDoc) (t : Trackers) (sh : ShiftDoc)
    (h : neededOf sh ≤ ((assignedList sh).length : Int)) :
    (mkEntry staffList t sh).fin = assignedList sh ∧
    (mkEntry staffList t sh).upd = none := by
  unfold mkEntry
  rw [processShift, if_pos h]
  exact ⟨rfl, rfl⟩

/-- Every shift's final list extends its input list. -/
theorem mkEntry_extends (staffList : List StaffDoc) (t : Trackers) (sh : ShiftDoc) :
    ∃ rest, (mkEntry staffList t sh).fin = assignedList sh ++ rest := by
  by_cases hskip : neededOf sh ≤ ((assignedList sh).length : Int)
  · exact ⟨[], by rw [(mkEntry_filled staffList t sh hskip).1, List.append_nil]⟩
  · cases hk : sh.assigned_staff_ids with
    | some l =>
      refine ⟨[], ?_⟩
      unfold mkEntry
      rw [processShift, if_neg hskip]
      simp only [finListOf, updOf, hk, List.append_nil]
    | none =>
      refine ⟨(mkEntry staffList t sh).fin, ?_⟩
      have hemp : assignedList sh = [] := by
        simp [assignedList, hk]
      rw [hemp, List.nil_append]

/-- Bound on a produced final list, given the input list was in bounds. -/
theorem mkEntry_len (staffList : List StaffDoc) (t : Trackers) (sh : ShiftDoc)
    (h : ((assignedList sh).length : Int) ≤ neededOf sh) :
    (((mkEntry staffList t sh).fin).length : Int) ≤ neededOf sh := by
  by_cases hskip : neededOf sh ≤ ((assignedList sh).length : Int)
  · rw [(mkEntry_filled staffList t sh hskip).1]
    exact h
  · unfold mkEntry
    rw [processShift, if_neg hskip]
    cases hk : sh.assigned_staff_ids with
    | some l =>
      simp only [finListOf, updOf, hk]
      exact h
    | none =>
      simp only [finListOf, updOf, hk]
      by_cases hemp : (assignLoop (neededOf sh) sh
          (sortDesc (scoredCandidates t (candidatesFor staffList sh) sh))
          (assignedList sh) t).1.isEmpty = true
      · rw [if_pos hemp]
        exact h
      · rw [if_neg hemp]
        exact assignLoop_length (neededOf sh) sh _ (assignedList sh) t h

/-- C4: if every input shift satisfies `len(assigned_staff_ids) ≤
required_count`, then every final assigned list of the pass satisfies it
too: filled shifts are skipped and the greedy fill stops exactly at the
required count. -/
theorem claim_C4 (d : Option Nat) (snap : Snapshot)
    (hin : ∀ sh ∈ snap.shifts, ((assignedList sh).length : Int) ≤ neededOf sh) :
    ∀ e ∈ passEntries d snap, ((e.fin.length : Int) ≤ neededOf e.shift) := by
  intro e he
  rw [passEntries, runPass] at he
  rcases entry_source (activeStaff snap) (filteredShifts d snap) _ _ _ e he with
    h0 | ⟨t2, sh, hsh, rfl⟩
  · exact absurd h0 (List.not_mem_nil e)
  · have hmem : sh ∈ snap.shifts := (List.mem_filter.mp hsh).1
    rw [mkEntry_shift]
    exact mkEntry_len _ _ _ (hin sh hmem)

theorem claim_C4_witness :
    (∀ sh ∈ snapA.shifts, ((assignedList sh).length : Int) ≤ neededOf sh) ∧
    (∀ e ∈ passEntries none snapA, ((e.fin.length : Int) ≤ neededOf e.shift)) :=
  ⟨by decide, claim_C4 none snapA (by decide)⟩

/-- Scenario D shifts: same date, same role, overlapping windows 09:00 to
13:00 and 12:00 to 16:00, one required staff each, no
`assigned_staff_ids` key so mutations are observable. -/
def shD1 : ShiftDoc :=
  ⟨"d1", "planned", 2, some "day", "09:00", "13:00", some "cna", some 1, none⟩

def shD2 : ShiftDoc :=
  ⟨"d2", "planned", 2, some "day", "12:00", "16:00", some "cna", some 1, none⟩

/-- The only eligible staff member of Scenario D. -/
def stD : StaffDoc := ⟨"u1", some "cna", true, none, [⟨"sat", "08:00", "17:00"⟩], none, []⟩

def snapD : Snapshot := ⟨[shD1, shD2], [stD]⟩

/-- C9: on every input (hence in particular on the merged output of a
previous run), a shift whose assigned count already reached its required
count gets no mutation and keeps its list, and every other shift's final
list only extends its input list (nothing is removed or replaced). -/
theorem claim_C9 (d : Option Nat) (snap : Snapshot) (e : PassEntry)
    (he : e ∈ passEntries d snap) :
    (∃ rest, e.fin = assignedList e.shift ++ rest) ∧
    (neededOf e.shift ≤ ((assignedList e.shift).length : Int) →
      e.fin = assignedList e.shift ∧ e.upd = none) := by
  rw [passEntries, runPass] at he
  rcases entry_source (activeStaff snap) (filteredShifts d snap) _ _ _ e he with
    h0 | ⟨t2, sh, _, rfl⟩
  · exact absurd h0 (List.not_mem_nil e)
  · constructor
    · rw [mkEntry_shift]
      exact mkEntry_extends _ _ _
    · intro hfill
      rw [mkEntry_shift] at hfill ⊢
      exact mkEntry_filled _ _ _ hfill

/-- A shift already filled up to its required count. -/
def shF : ShiftDoc :=
  ⟨"f1", "planned", 2, some "day", "09:00", "13:00", some "cna", some 1, some ["z"]⟩

def snapF : Snapshot := ⟨[shF], []⟩

theorem claim_C9_witness :
    (∃ rest,
      (⟨shD1, ["u1"], some ⟨"d1", ["u1"], "published"⟩⟩ : PassEntry).fin
        = assignedList shD1 ++ rest) ∧
    ((⟨shF, ["z"], none⟩ : PassEntry).fin = assignedList shF ∧
      (⟨shF, ["z"], none⟩ : PassEntry).upd = none) :=
  ⟨(claim_C9 none snapD ⟨shD1, ["u1"], some ⟨"d1", ["u1"], "published"⟩⟩ (by decide)).1,
   (claim_C9 none snapF ⟨shF, ["z"], none⟩ (by decide)).2 (by decide)⟩

end Sched

namespace Sched

/-- Two shifts clash when they are on the same calendar date and their time
windows overlap in the sense of `time_overlap`. -/
def clash (a b : ShiftDoc) : Prop :=
  a.date = b.date ∧
    time_overlap a.start_time a.end_time b.start_time b.end_time = true

theorem clash_symm {a b : ShiftDoc} (h : clash a b) : clash b a := by
  obtain ⟨hd, ho⟩ := h
  refine ⟨hd.symm, ?_⟩
  rw [time_overlap] at ho ⊢
  rwa [Bool.or_comm]

/-- Reading off a failed overlap check: no booked slot of this staff id
shares the shift's date while overlapping its time range. -/
theorem hasOverlap_eq_false {t : Trackers} {sid : String} {sh : ShiftDoc}
    (h : hasOverlap t sid sh = false) :
    ∀ slot ∈ t.assignments sid,
      ¬(slot.date = sh.date ∧
        time_overlap slot.start slot.stop sh.start_time sh.end_time = true) := by
  rw [hasOverlap, List.any_eq_false] at h
  intro slot hs hcl
  apply h slot hs
  rw [Bool.and_eq_true]
  exact ⟨beq_iff_eq.mpr hcl.1, hcl.2⟩

/-- Per-shift step facts used by the no-double-booking proof: the trackers
only grow, and every id on the final list either was on the input list or
passed the overlap check against the incoming trackers and is booked on
this shift in the outgoing trackers. -/
theorem processShift_spec (staffList : List StaffDoc) (t : Trackers) (sh : ShiftDoc) :
    Trackers.le t (processShift staffList t sh).1 ∧
    ∀ sid ∈ (mkEntry staffList t sh).fin,
      sid ∈ assignedList sh ∨
      (hasOverlap t sid sh = false ∧
        slotOf sh ∈ ((processShift staffList t sh).1).assignments sid) := by
  by_cases hskip : neededOf sh ≤ ((assignedList sh).length : Int)
  · constructor
    · rw [processShift, if_pos hskip]
      exact Trackers.le_refl t
    · rw [(mkEntry_filled staffList t sh hskip).1]
      intro sid hsid
      exact Or.inl hsid
  · have hle : Trackers.le t (processShift staffList t sh).1 := by
      rw [processShift, if_neg hskip]
      exact (assignLoop_spec (neededOf sh) sh _ (assignedList sh) t).1
    refine ⟨hle, ?_⟩
    intro sid hsid
    unfold mkEntry at hsid
    rw [processShift, if_neg hskip] at hsid
    cases hk : sh.assigned_staff_ids with
    | some l =>
      simp only [finListOf, updOf, hk] at hsid
      exact Or.inl hsid
    | none =>
      simp only [finListOf, updOf, hk] at hsid
      by_cases hemp : (assignLoop (neededOf sh) sh
          (sortDesc (scoredCandidates t (candidatesFor staffList sh) sh))
          (assignedList sh) t).1.isEmpty = true
      · rw [if_pos hemp] at hsid
        exact Or.inl hsid
      · rw [if_neg hemp] at hsid
        obtain ⟨_, news, hfin, hnews⟩ :=
          assignLoop_spec (neededOf sh) sh
            (sortDesc (scoredCandidates t (candidatesFor staffList sh) sh))
            (assignedList sh) t
        rw [hfin] at hsid
        have hpre : assignedList sh = [] := by simp [assignedList, hk]
        rw [hpre, List.nil_append] at hsid
        obtain ⟨⟨p, hp, hpid⟩, hslot⟩ := hnews sid hsid
        have hmem := sortDesc_subset hp
        have hchecks := scoredCandidates_mem (by
          rw [show p = (p.1, p.2) from rfl] at hmem
          exact hmem)
        right
        constructor
        · rw [← hpid]
          exact hchecks.2.2.1
        · rw [processShift, if_neg hskip]
          exact hslot

/-- The no-double-booking invariant carried through the per-shift fold. -/
theorem pass_ndb (S : List StaffDoc) (F : List ShiftDoc) :
    ∀ (todo : List ShiftDoc) (t : Trackers) (us : List Update) (es : List PassEntry),
      (∀ sh ∈ todo, sh ∈ F) →
      List.Pairwise (fun a b => clash a b →
        ∀ sid, ¬(sid ∈ assignedList a ∧ sid ∈ assignedList b)) todo →
      (∀ e ∈ es, ∀ sh2 ∈ todo, clash e.shift sh2 →
        ∀ sid, ¬(sid ∈ assignedList e.shift ∧ sid ∈ assignedList sh2)) →
      (∀ sh ∈ F, ∀ sid ∈ assignedList sh, slotOf sh ∈ t.assignments sid) →
      (∀ e ∈ es, ∀ sid ∈ e.fin, slotOf e.shift ∈ t.assignments sid) →
      (∀ e ∈ es, ∀ sid ∈ e.fin, sid ∈ assignedList e.shift ∨
        (∀ sh2 ∈ F, sid ∈ assignedList sh2 → ¬ clash e.shift sh2)) →
      List.Pairwise (fun p q => clash p.shift q.shift →
        ∀ sid, ¬(sid ∈ p.fin ∧ sid ∈ q.fin)) es →
      List.Pairwise (fun p q => clash p.shift q.shift →
        ∀ sid, ¬(sid ∈ p.fin ∧ sid ∈ q.fin))
        ((todo.foldl (stepShift S) (t, us, es)).2.2) := by
  intro todo
  induction todo with
  | nil =>
    intro t us es _ _ _ _ _ _ h7
    exact h7
  | cons sh rest ih =>
    intro t us es h1 h2 h3 h4 h5 h6 h7
    rw [List.foldl_cons, stepShift_eq]
    have hshF : sh ∈ F := h1 sh (List.mem_cons_self ..)
    obtain ⟨hle, hstep⟩ := processShift_spec S t sh
    obtain ⟨h2head, h2rest⟩ := List.pairwise_cons.mp h2
    apply ih (processShift S t sh).1 _ (es ++ [mkEntry S t sh])
    · intro sh2 hsh2
      exact h1 sh2 (List.mem_cons_of_mem _ hsh2)
    · exact h2rest
    · intro e he sh2 hsh2
      rcases List.mem_append.mp he with he2 | he2
      · exact h3 e he2 sh2 (List.mem_cons_of_mem _ hsh2)
      · rw [List.mem_singleton.mp he2, mkEntry_shift]
        exact h2head sh2 hsh2
    · intro sh2 hsh2 sid hsid
      exact hle sid (slotOf sh2) (h4 sh2 hsh2 sid hsid)
    · intro e he sid hsid
      rcases List.mem_append.mp he with he2 | he2
      · exact hle sid (slotOf e.shift) (h5 e he2 sid hsid)
      · rw [List.mem_singleton.mp he2] at hsid ⊢
        rw [mkEntry_shift]
        rcases hstep sid hsid with hpre | ⟨_, hbooked⟩
        · exact hle sid (slotOf sh) (h4 sh hshF sid hpre)
        · exact hbooked
    · intro e he sid hsid
      rcases List.mem_append.mp he with he2 | he2
      · exact h6 e he2 sid hsid
      · rw [List.mem_singleton.mp he2] at hsid ⊢
        rw [mkEntry_shift]
        rcases hstep sid hsid with hpre | ⟨hcheck, _⟩
        · exact Or.inl hpre
        · refine Or.inr ?_
          intro sh2 hsh2 hsid2 hcl
          exact hasOverlap_eq_false hcheck (slotOf sh2) (h4 sh2 hsh2 sid hsid2)
            ⟨(clash_symm hcl).1, (clash_symm hcl).2⟩
    · rw [List.pairwise_append]
      refine ⟨h7, List.pairwise_singleton .., ?_⟩
      intro e he q hq
      rw [List.mem_singleton.mp hq, mkEntry_shift]
      intro hcl sid hsid
      obtain ⟨hsid_e, hsid_new⟩ := hsid
      rcases hstep sid hsid_new with hpre | ⟨hcheck, _⟩
      · rcases h6 e he sid hsid_e with hpre_e | hsafe
        · exact h3 e he sh (List.mem_cons_self ..) hcl sid ⟨hpre_e, hpre⟩
        · exact hsafe sh hshF hpre hcl
      · exact hasOverlap_eq_false hcheck (slotOf e.shift)
          (h5 e he sid hsid_e) ⟨hcl.1, hcl.2⟩

end Sched

namespace Sched

/-- C3: no double-booking.  If the filtered input snapshot has no staff id
on two clashing shifts (same date, overlapping windows), then after the
pass no staff id is on the final lists (mutations where written, input
lists elsewhere) of two clashing shifts.  And concretely, in Scenario D
with shifts 09:00 to 13:00 and 12:00 to 16:00 on one date and a single
eligible staff member, only the first-processed shift receives the member
and only it is mutated. -/
theorem claim_C3 :
    (∀ (d : Option Nat) (snap : Snapshot),
      List.Pairwise (fun a b => clash a b →
        ∀ sid, ¬(sid ∈ assignedList a ∧ sid ∈ assignedList b))
        (filteredShifts d snap) →
      List.Pairwise (fun p q => clash p.shift q.shift →
        ∀ sid, ¬(sid ∈ p.fin ∧ sid ∈ q.fin)) (passEntries d snap)) ∧
    auto_assign none snapD = [⟨"d1", ["u1"], "published"⟩] := by
  constructor
  · intro d snap hin
    rw [passEntries, runPass]
    apply pass_ndb (activeStaff snap) (filteredShifts d snap)
    · intro sh hsh
      exact hsh
    · exact hin
    · intro e he
      exact absurd he (List.not_mem_nil e)
    · intro sh hsh sid hsid
      exact seed_covers hsh hsid
    · intro e he
      exact absurd he (List.not_mem_nil e)
    · intro e he
      exact absurd he (List.not_mem_nil e)
    · exact List.Pairwise.nil
  · decide

theorem claim_C3_witness :
    List.Pairwise (fun p q => clash p.shift q.shift →
      ∀ sid, ¬(sid ∈ p.fin ∧ sid ∈ q.fin)) (passEntries none snapD) := by
  apply claim_C3.1 none snapD
  have hf : filteredShifts none snapD = [shD1, shD2] := by decide
  rw [hf]
  refine List.Pairwise.cons ?_ (List.Pairwise.cons ?_ List.Pairwise.nil)
  · intro b _ _ sid hsid
    have : sid ∈ ([] : List String) := hsid.1
    exact absurd this (List.not_mem_nil sid)
  · intro b hb
    exact absurd hb (List.not_mem_nil b)

end Sched
